import Mathlib

set_option maxRecDepth 2048

/- Formal model of the mock live-transcribe server: usage store, transcription
service, binary frame codec, WebSocket session handling, per-user soft lock,
dispatcher loop, and the two queue implementations, with theorems relating
them to the stated behaviour. JS numbers are modelled as unbounded integers
(exact for every value the server manipulates), byte buffers as lists of
naturals, and opaque string UserIds as naturals (only equality is used). -/

/-- Usage record held per user (`usageService`: `{ remainingMs, totalUsedMs }`). -/
structure UsageData where
  remainingMs : Int
  totalUsedMs : Int
deriving DecidableEq

/-- The in-memory usage store `MEMORY_STORAGE : Map<UserId, UsageData>`,
modelled as an association list. -/
abbrev Store := List (Nat × UsageData)

/-- Association-list lookup, modelling `Map.get` (also used for the
`USER_ID_SOCKET_MAP` record). -/
def lookupAssoc {β : Type} : List (Nat × β) → Nat → Option β
  | [], _ => none
  | (k, v) :: rest, u => if k = u then some v else lookupAssoc rest u

/-- Association-list update, modelling `Map.set` / record assignment. -/
def setAssoc {β : Type} : List (Nat × β) → Nat → β → List (Nat × β)
  | [], u, d => [(u, d)]
  | (k, v) :: rest, u, d => if k = u then (u, d) :: rest else (k, v) :: setAssoc rest u d

/-- `_getUsage(userId)`: `MEMORY_STORAGE.get(userId) ?? createUsage(0)`;
`createUsage(0)` is `{ remainingMs: 0, totalUsedMs: 0 }`. The async wrapper
`getUsage` only adds a 50 ms delay around this read, and the HTTP route
`GET /api/usage` (`usageController.getUsage`) returns exactly this record. -/
def getUsage (s : Store) (u : Nat) : UsageData :=
  (lookupAssoc s u).getD ⟨0, 0⟩

/-- `updateUsage(userId, usedMs)`: reads the current record and stores
`{ totalUsedMs: totalUsedMs + usedMs, remainingMs: Math.max(remainingMs - usedMs, 0) }`. -/
def updateUsage (s : Store) (u : Nat) (usedMs : Int) : Store :=
  let usage := getUsage s u
  setAssoc s u ⟨max (usage.remainingMs - usedMs) 0, usage.totalUsedMs + usedMs⟩

/-- `BYTES_PER_WORD = 16_000` (trascribeService). -/
def BYTES_PER_WORD : Nat := 16000

/-- `MS_PER_WORD = 250` (trascribeService). -/
def MS_PER_WORD : Nat := 250

/-- `fakeSpeechWordCount(audioPacket) = Math.ceil(audioPacket.length / BYTES_PER_WORD)`,
written as natural-number ceiling division (exact for every buffer length
below 2^52, far beyond any WebSocket frame). -/
def fakeSpeechWordCount (len : Nat) : Nat :=
  (len + BYTES_PER_WORD - 1) / BYTES_PER_WORD

/-- `fakeProcessTime(wordCount) = Math.ceil(wordCount * MS_PER_WORD)`; the
argument is an integer so the ceiling is the product itself. -/
def fakeProcessTime (wordCount : Nat) : Nat :=
  wordCount * MS_PER_WORD

/-- `estimateUsageMs(audioPacket) = fakeProcessTime(fakeSpeechWordCount(audioPacket))`. -/
def estimateUsageMs (len : Nat) : Nat :=
  fakeProcessTime (fakeSpeechWordCount len)

/-- Reply body of a transcription (`TranscribeResponse`). The `transcript`
(lorem-ipsum text) and `confidence` (random in [0.5, 1.0)) fields are
randomized in the source and carry no metered information; the two usage
fields, which every claim is about, are modelled. -/
structure TranscribeResponse where
  usageUsedMs : Int
  usageRemainingMs : Int
deriving DecidableEq

/-- Outcome of `transcribeForUser`: either it throws
`ExceededAllocatedUsageError` or it resolves with a reply body. -/
inductive TOutcome
  | exceeded
  | succeeded (resp : TranscribeResponse)
deriving DecidableEq

/-- Full observable effect of one `transcribeForUser` call: its outcome, the
store afterwards, the list of `usedMs` arguments passed to
`usageService.updateUsage`, and whether the transcription itself ran. -/
structure TFUResult where
  outcome : TOutcome
  store : Store
  updateCalls : List Int
  ranTranscribe : Bool
deriving DecidableEq

/-- `transcribeForUser(request)` (trascribeService): reads the user's usage,
throws `ExceededAllocatedUsageError` when `remainingMs <= 0` or when
`remainingMs < estimateUsageMs(audioPacket)`, otherwise runs the (fake)
transcription — whose `usageUsedMs` is exactly `estimateUsageMs` of the
payload — builds the reply with
`usageRemainingMs = remainingMs - usageUsedMs` (`handleTranscribeRequest`),
then calls `updateUsage(userId, usageUsedMs)` and resolves. -/
def transcribeForUser (store : Store) (u : Nat) (len : Nat) : TFUResult :=
  if (getUsage store u).remainingMs ≤ 0 then
    ⟨.exceeded, store, [], false⟩
  else if (getUsage store u).remainingMs < (estimateUsageMs len : Int) then
    ⟨.exceeded, store, [], false⟩
  else
    ⟨.succeeded ⟨(estimateUsageMs len : Int),
        (getUsage store u).remainingMs - (estimateUsageMs len : Int)⟩,
      updateUsage store u (estimateUsageMs len : Int),
      [(estimateUsageMs len : Int)], true⟩

/-- Demo store used by concrete witnesses: user 1 with the initial
`STARTING_USAGE_LIMIT_MS = 1000` budget. -/
def demoStore : Store := [(1, ⟨1000, 0⟩)]

theorem lookupAssoc_setAssoc {β : Type} (s : List (Nat × β)) (u : Nat) (d : β) :
    lookupAssoc (setAssoc s u d) u = some d := by
  induction s with
  | nil => simp [setAssoc, lookupAssoc]
  | cons kv rest ih =>
    obtain ⟨k, v⟩ := kv
    by_cases hk : k = u
    · simp [setAssoc, hk, lookupAssoc]
    · simp [setAssoc, hk, lookupAssoc, ih]

theorem sum_nonneg_of_mem (l : List Int) (h : ∀ x ∈ l, 0 ≤ x) : 0 ≤ l.sum := by
  induction l with
  | nil => simp
  | cons x rest ih =>
    have hx := h x (by simp)
    have hr := ih (fun y hy => h y (by simp [hy]))
    rw [List.sum_cons]
    omega

theorem estimateUsageMs_pos (len : Nat) (h : 0 < len) : 250 ≤ estimateUsageMs len := by
  unfold estimateUsageMs fakeProcessTime fakeSpeechWordCount BYTES_PER_WORD MS_PER_WORD
  omega

theorem updateUsage_fold (u : Nat) (us : List Int) :
    ∀ (s : Store) (r t : Int), lookupAssoc s u = some ⟨r, t⟩ → 0 ≤ r →
    (∀ x ∈ us, 0 ≤ x) →
    getUsage (us.foldl (fun acc v => updateUsage acc u v) s) u
      = ⟨max 0 (r - us.sum), t + us.sum⟩ := by
  induction us with
  | nil =>
    intro s r t hl hr _
    simp only [List.foldl_nil, List.sum_nil, getUsage, hl, Option.getD_some]
    have h0 : max 0 (r - 0) = r := by omega
    rw [h0]
    simp
  | cons v rest ih =>
    intro s r t hl hr hpos
    have hv : 0 ≤ v := hpos v (by simp)
    have hrest : ∀ x ∈ rest, 0 ≤ x := fun x hx => hpos x (by simp [hx])
    have hsum : 0 ≤ rest.sum := sum_nonneg_of_mem rest hrest
    have hl' : lookupAssoc (updateUsage s u v) u = some ⟨max (r - v) 0, t + v⟩ := by
      simp only [updateUsage, getUsage, hl, Option.getD_some]
      exact lookupAssoc_setAssoc s u _
    have hstep := ih (updateUsage s u v) (max (r - v) 0) (t + v) hl' (le_max_right _ _) hrest
    rw [List.foldl_cons, hstep, List.sum_cons]
    congr 1
    · omega
    · omega

/-- Claim C7: starting from the record with budget `initial` and zero usage,
after any finite sequence of non-negative `updateUsage` amounts for the same
user, `getUsage` returns total usage equal to the sum of the amounts and a
remaining budget of `max 0 (initial - sum)`: the per-step clamp composes to a
single clamp of the total. -/
theorem usage_ledger_fold (initial : Int) (us : List Int) (u : Nat)
    (h0 : 0 ≤ initial) (hpos : ∀ x ∈ us, 0 ≤ x) :
    getUsage (us.foldl (fun acc v => updateUsage acc u v) [(u, ⟨initial, 0⟩)]) u
      = ⟨max 0 (initial - us.sum), us.sum⟩ := by
  have h := updateUsage_fold u us [(u, ⟨initial, 0⟩)] initial 0
    (by simp [lookupAssoc]) h0 hpos
  simpa using h

/-- Concrete witness for C7: budget 1000, five updates of 250 ms; the ledger
reads total 1250 and remaining 0 (clamped). -/
theorem usage_ledger_fold_witness :
    getUsage (([250, 250, 250, 250, 250] : List Int).foldl
      (fun acc v => updateUsage acc 1 v) [(1, ⟨1000, 0⟩)]) 1 = ⟨0, 1250⟩ :=
  (usage_ledger_fold 1000 [250, 250, 250, 250, 250] 1 (by decide)
    (by decide)).trans (by decide)

/-- Claim C5: `transcribeForUser` rejects with `ExceededAllocatedUsageError` —
leaving the store untouched, performing no `updateUsage` call and never
running the transcription — exactly when the remaining budget is non-positive
or the estimated cost exceeds it; and for a non-empty payload whose cost
exactly equals the remaining budget it succeeds, with zero budget left in the
reply. -/
theorem transcribeForUser_admission (store : Store) (u : Nat) (len : Nat) :
    (((transcribeForUser store u len).outcome = TOutcome.exceeded) ↔
      ((getUsage store u).remainingMs ≤ 0 ∨
        (estimateUsageMs len : Int) > (getUsage store u).remainingMs))
    ∧ ((transcribeForUser store u len).outcome = TOutcome.exceeded →
        (transcribeForUser store u len).store = store ∧
        (transcribeForUser store u len).ranTranscribe = false ∧
        (transcribeForUser store u len).updateCalls = [])
    ∧ (0 < len → (estimateUsageMs len : Int) = (getUsage store u).remainingMs →
        (transcribeForUser store u len).outcome =
          TOutcome.succeeded ⟨(estimateUsageMs len : Int), 0⟩) := by
  unfold transcribeForUser
  by_cases h1 : (getUsage store u).remainingMs ≤ 0
  · rw [if_pos h1]
    exact ⟨⟨fun _ => Or.inl h1, fun _ => rfl⟩,
      fun _ => ⟨rfl, rfl, rfl⟩,
      fun hlen hc => absurd hc
        (by have := estimateUsageMs_pos len hlen; omega)⟩
  · rw [if_neg h1]
    by_cases h2 : (getUsage store u).remainingMs < (estimateUsageMs len : Int)
    · rw [if_pos h2]
      exact ⟨⟨fun _ => Or.inr (by omega), fun _ => rfl⟩,
        fun _ => ⟨rfl, rfl, rfl⟩,
        fun _ hc => absurd hc (by omega)⟩
    · rw [if_neg h2]
      refine ⟨⟨fun h => TOutcome.noConfusion h, fun h => absurd h (by omega)⟩,
        fun h => TOutcome.noConfusion h, fun _ hc => ?_⟩
      have hz : (getUsage store u).remainingMs - (estimateUsageMs len : Int) = 0 := by
        omega
      rw [hz]

/-- Concrete witness for C5: budget 1000 and a 64000-byte payload, whose cost
is exactly 1000 ms; the request succeeds and the reply reports zero budget
left. -/
theorem transcribeForUser_admission_witness :
    (transcribeForUser demoStore 1 64000).outcome = TOutcome.succeeded ⟨1000, 0⟩ :=
  ((transcribeForUser_admission demoStore 1 64000).2.2 (by decide)
    (by decide)).trans (by decide)

/-- Claim C6: for every completed transcription, the reply's `usageUsedMs` is
`ceil(len / BYTES_PER_WORD) * MS_PER_WORD`, the usage store is updated with
exactly that amount, and the reply's `usageRemainingMs` equals
`max 0 (priorRemaining - usageUsedMs)`. -/
theorem transcribe_reply_usage (store : Store) (u : Nat) (len : Nat)
    (resp : TranscribeResponse)
    (h : (transcribeForUser store u len).outcome = TOutcome.succeeded resp) :
    estimateUsageMs len = (len + BYTES_PER_WORD - 1) / BYTES_PER_WORD * MS_PER_WORD
    ∧ resp.usageUsedMs = (estimateUsageMs len : Int)
    ∧ (transcribeForUser store u len).updateCalls = [resp.usageUsedMs]
    ∧ resp.usageRemainingMs =
        max 0 ((getUsage store u).remainingMs - resp.usageUsedMs) := by
  unfold transcribeForUser at h ⊢
  by_cases h1 : (getUsage store u).remainingMs ≤ 0
  · rw [if_pos h1] at h
    exact absurd h (fun hc => TOutcome.noConfusion hc)
  · rw [if_neg h1] at h ⊢
    by_cases h2 : (getUsage store u).remainingMs < (estimateUsageMs len : Int)
    · rw [if_pos h2] at h
      exact absurd h (fun hc => TOutcome.noConfusion hc)
    · rw [if_neg h2] at h ⊢
      have hr : TOutcome.succeeded ⟨(estimateUsageMs len : Int),
          (getUsage store u).remainingMs - (estimateUsageMs len : Int)⟩
          = TOutcome.succeeded resp := h
      have hresp : resp = ⟨(estimateUsageMs len : Int),
          (getUsage store u).remainingMs - (estimateUsageMs len : Int)⟩ := by
        injection hr with hr
        exact hr.symm
      subst hresp
      refine ⟨rfl, rfl, rfl, ?_⟩
      show (getUsage store u).remainingMs - (estimateUsageMs len : Int)
        = max 0 ((getUsage store u).remainingMs - (estimateUsageMs len : Int))
      omega

/-- Concrete witness for C6: budget 1000, one 16000-byte payload; the reply
carries `usageUsedMs = 250`, the store is updated with 250, and
`usageRemainingMs = 750`. -/
theorem transcribe_reply_usage_witness :
    estimateUsageMs 16000 = (16000 + BYTES_PER_WORD - 1) / BYTES_PER_WORD * MS_PER_WORD
    ∧ (⟨250, 750⟩ : TranscribeResponse).usageUsedMs = (estimateUsageMs 16000 : Int)
    ∧ (transcribeForUser demoStore 1 16000).updateCalls
        = [(⟨250, 750⟩ : TranscribeResponse).usageUsedMs]
    ∧ (⟨250, 750⟩ : TranscribeResponse).usageRemainingMs
        = max 0 ((getUsage demoStore 1).remainingMs
            - (⟨250, 750⟩ : TranscribeResponse).usageUsedMs) :=
  transcribe_reply_usage demoStore 1 16000 ⟨250, 750⟩ (by decide)

/-- The four big-endian bytes written by `Buffer.writeUInt32BE(id)`
(`insertIdIntoBuffer` allocates a 4-byte buffer; the id must be below 2^32). -/
def writeUInt32BE (id : Nat) : List Nat :=
  [id / 16777216 % 256, id / 65536 % 256, id / 256 % 256, id % 256]

/-- `insertIdIntoBuffer(id, buffer)`: `Buffer.concat([idBuffer, buffer])`. -/
def insertIdIntoBuffer (id : Nat) (buffer : List Nat) : List Nat :=
  writeUInt32BE id ++ buffer

/-- `buffer.readUInt32BE(0)`: big-endian read of the first four bytes; throws
a RangeError when the buffer holds fewer than four bytes. -/
def readUInt32BE : List Nat → Option Nat
  | b0 :: b1 :: b2 :: b3 :: _ => some (b0 * 16777216 + b1 * 65536 + b2 * 256 + b3)
  | _ => none

/-- The `{ id, data }` pair produced by `getIdFromBuffer`. -/
structure IdParts where
  id : Nat
  data : List Nat
deriving DecidableEq

/-- Result of `getIdFromBuffer`: either the RangeError thrown by
`readUInt32BE` on a short buffer, or the decoded parts. -/
inductive BufResult
  | rangeError
  | ok (p : IdParts)
deriving DecidableEq

/-- `getIdFromBuffer(buffer) = { id: buffer.readUInt32BE(0), data: buffer.subarray(4) }`. -/
def getIdFromBuffer (b : List Nat) : BufResult :=
  match readUInt32BE b with
  | none => .rangeError
  | some id => .ok ⟨id, b.drop 4⟩

/-- A decoded work item (`QueueEntry` in the ws module). -/
structure QueueEntry where
  id : Nat
  data : List Nat
deriving DecidableEq

/-- The two exceptions the `QueueEntry` constructor can raise: the RangeError
from `readUInt32BE` on a frame shorter than 4 bytes, and the module's
`InvalidData` error on an empty payload. -/
inductive JsErr
  | rangeError
  | invalidData
deriving DecidableEq

/-- Result of `new QueueEntry(buffer)`. -/
inductive EntryResult
  | thrown (e : JsErr)
  | made (q : QueueEntry)
deriving DecidableEq

/-- `new QueueEntry(buffer)`: runs `getIdFromBuffer` and throws
`InvalidData('invalid message')` when the payload after the 4-byte prefix is
empty. -/
def mkQueueEntry (b : List Nat) : EntryResult :=
  match getIdFromBuffer b with
  | .rangeError => .thrown .rangeError
  | .ok p => if p.data.length = 0 then .thrown .invalidData else .made ⟨p.id, p.data⟩

/-- The JSON reply sent by `processTranscribe`:
`sendData(clientSocket, { id: queueEntry.id, ...result })`. -/
structure Reply where
  id : Nat
  body : TranscribeResponse
deriving DecidableEq

/-- Builds the reply object of `processTranscribe` from the dequeued entry
and the transcription result. -/
def mkReply (entry : QueueEntry) (result : TranscribeResponse) : Reply :=
  ⟨entry.id, result⟩

/-- Claim C8: for every 32-bit id `k` and non-empty payload `p`, decoding the
frame built by `insertIdIntoBuffer` yields exactly `(k, p)` (the decoder is a
left inverse of the encoder), the queue entry keeps that id, and the reply
object built for the entry echoes `id = k`. -/
theorem sequence_id_echo (k : Nat) (p : List Nat) (resp : TranscribeResponse)
    (hk : k < 4294967296) (hp : p ≠ []) :
    getIdFromBuffer (insertIdIntoBuffer k p) = BufResult.ok ⟨k, p⟩
    ∧ mkQueueEntry (insertIdIntoBuffer k p) = EntryResult.made ⟨k, p⟩
    ∧ (mkReply ⟨k, p⟩ resp).id = k := by
  have hdecode : getIdFromBuffer (insertIdIntoBuffer k p) = BufResult.ok ⟨k, p⟩ := by
    simp only [insertIdIntoBuffer, writeUInt32BE, List.cons_append, List.nil_append,
      getIdFromBuffer, readUInt32BE, List.drop_succ_cons, List.drop_zero,
      BufResult.ok.injEq, IdParts.mk.injEq]
    exact ⟨by omega, trivial⟩
  have hlen : ¬ p.length = 0 := fun h0 => hp (List.length_eq_zero.mp h0)
  refine ⟨hdecode, ?_, rfl⟩
  unfold mkQueueEntry
  rw [hdecode]
  show (if p.length = 0 then EntryResult.thrown .invalidData
    else EntryResult.made ⟨k, p⟩) = EntryResult.made ⟨k, p⟩
  rw [if_neg hlen]

/-- Concrete witness for C8: id 7 on payload `[9]` survives the round trip and
is echoed in the reply. -/
theorem sequence_id_echo_witness :
    getIdFromBuffer (insertIdIntoBuffer 7 [9]) = BufResult.ok ⟨7, [9]⟩
    ∧ mkQueueEntry (insertIdIntoBuffer 7 [9]) = EntryResult.made ⟨7, [9]⟩
    ∧ (mkReply ⟨7, [9]⟩ ⟨250, 750⟩).id = 7 :=
  sequence_id_echo 7 [9] ⟨250, 750⟩ (by decide) (by decide)

/-- `WsCloseCode.GoingAway`. -/
def wsGoingAway : Nat := 1001

/-- `WsCloseCode.InvalidData`. -/
def wsInvalidData : Nat := 1007

/-- `WsCloseCode.PolicyViolation`. -/
def wsPolicyViolation : Nat := 1008

/-- `WsCloseCode.UnexpectedError`. -/
def wsUnexpectedError : Nat := 1011

/-- `InternalErrorCode.ExceededAllocatedUsageError`. -/
def icExceededAllocatedUsage : Nat := 0

/-- `InternalErrorCode.ConnectionReplacedError`. -/
def icConnectionReplaced : Nat := 3

/-- `InternalErrorCode.NotReady`. -/
def icNotReady : Nat := 6

/-- `InternalErrorCode.InvalidData`. -/
def icInvalidData : Nat := 7

/-- `InternalErrorCode.ServerError`. -/
def icServerError : Nat := 99

/-- What one invocation of the ws `message` listener does with an inbound
binary frame. -/
inductive HandlerOutcome
  | enqueued (entry : QueueEntry)
  | closed (wsCode internalCode : Nat)
  | uncaught (e : JsErr)
deriving DecidableEq

/-- `clientSocketMessageHandler(data)`: on a non-ready session it closes with
`(PolicyViolation, NotReady)`; otherwise it builds `new QueueEntry(buffer)`
and enqueues it. The handler body has no try/catch, so an exception thrown by
the `QueueEntry` constructor propagates out of the `message` event listener:
no `closeWithError` call runs and nothing is enqueued. -/
def clientSocketMessageHandler (ready : Bool) (data : List Nat) : HandlerOutcome :=
  if ready = false then .closed wsPolicyViolation icNotReady
  else
    match mkQueueEntry data with
    | .thrown e => .uncaught e
    | .made q => .enqueued q

/-- Claim C3 (divergence): on a Ready session, a 4-byte frame (empty payload)
makes the `QueueEntry` constructor throw `InvalidData`, which escapes the
message listener uncaught — the session is NOT closed with
`(WsCloseCode.InvalidData, InternalErrorCode.InvalidData)` as the spec says —
and a frame shorter than 4 bytes escapes as an uncaught RangeError; only a
well-formed frame is enqueued. -/
theorem invalid_frame_uncaught :
    clientSocketMessageHandler true [0, 0, 0, 1] = HandlerOutcome.uncaught JsErr.invalidData
    ∧ clientSocketMessageHandler true [0, 0] = HandlerOutcome.uncaught JsErr.rangeError
    ∧ clientSocketMessageHandler true [0, 0, 0, 1, 5] = HandlerOutcome.enqueued ⟨1, [5]⟩
    ∧ clientSocketMessageHandler false [0, 0, 0, 1, 5]
        = HandlerOutcome.closed wsPolicyViolation icNotReady := by
  decide

/-- Outcome of the `usageService.getUsage` promise awaited during admission. -/
inductive StoreResult
  | failure
  | success (d : UsageData)
deriving DecidableEq

/-- Observable actions of `validateUsageRemaining`. -/
inductive AdmitAction
  | closeWith (wsCode internalCode : Nat)
  | setReady
  | sentReadyEvent
  | logStoreError
deriving DecidableEq

/-- `validateUsageRemaining(clientSocket)`: awaits `getUsage`; a rejection is
logged by the `.catch` and rethrown (second component `true` = the async
function's promise rejects). On success it closes with
`(PolicyViolation, ExceededAllocatedUsageError)` when `remainingMs <= 0`,
otherwise sets `clientSocket.ready = true` and sends `{event:'ready'}`. -/
def validateUsageRemaining (res : StoreResult) : List AdmitAction × Bool :=
  match res with
  | .failure => ([.logStoreError], true)
  | .success d =>
    if d.remainingMs ≤ 0 then
      ([.closeWith wsPolicyViolation icExceededAllocatedUsage], false)
    else
      ([.setReady, .sentReadyEvent], false)

/-- `handleConnection` runs `void validateUsageRemaining(clientSocket)`:
the returned promise is discarded, so a rejection is never handled and
produces no further action on the socket. -/
def handleConnectionAdmission (res : StoreResult) : List AdmitAction :=
  (validateUsageRemaining res).1

/-- Claim C4 (divergence): when `getUsage` rejects during admission the only
action is a console log; the rejection propagates out of
`validateUsageRemaining` and is discarded by `void` in `handleConnection`, so
no close frame — in particular not `(UnexpectedError, ServerError)` — is
sent. The two success branches are shown for contrast. -/
theorem admission_store_error_unhandled :
    handleConnectionAdmission StoreResult.failure = [AdmitAction.logStoreError]
    ∧ (validateUsageRemaining StoreResult.failure).2 = true
    ∧ handleConnectionAdmission (StoreResult.success ⟨0, 0⟩)
        = [AdmitAction.closeWith wsPolicyViolation icExceededAllocatedUsage]
    ∧ handleConnectionAdmission (StoreResult.success ⟨1000, 0⟩)
        = [AdmitAction.setReady, AdmitAction.sentReadyEvent] := by
  decide

/-- `USER_ID_SOCKET_MAP`: UserId to live socket; socket instances are
modelled by distinct naturals. -/
abbrev Registry := List (Nat × Nat)

/-- `delete map[u]`: removes the binding for `u` (association lists built by
`setAssoc` hold at most one binding per key). -/
def eraseAssoc {β : Type} : List (Nat × β) → Nat → List (Nat × β)
  | [], _ => []
  | (k, v) :: rest, u => if k = u then rest else (k, v) :: eraseAssoc rest u

/-- `registerSocketForUserId(clientSocket)`: closes the existing socket for
the user with `(PolicyViolation, ConnectionReplacedError)` — returned as the
second component — and stores the new socket. -/
def registerSocketForUserId (reg : Registry) (u : Nat) (socket : Nat) :
    Registry × Option Nat :=
  match lookupAssoc reg u with
  | some existing => (setAssoc reg u socket, some existing)
  | none => (setAssoc reg u socket, none)

/-- `clientSocketCloseHandler`: `delete USER_ID_SOCKET_MAP[userId]` (and the
queue map). The socket being closed is never compared with the registered
one — the third argument is unused, exactly as in the source. -/
def clientSocketCloseHandler (reg : Registry) (u : Nat) (_closingSocket : Nat) :
    Registry :=
  eraseAssoc reg u

/-- Claim C2 (divergence): register session 100 for user 1, then session 200
(which evicts 100); when the predecessor 100's close handler runs, the
successor 200's registration is deleted — the handler removes the mapping
unconditionally instead of compare-and-remove. -/
theorem close_handler_unregisters_successor :
    (registerSocketForUserId (registerSocketForUserId [] 1 100).1 1 200).2 = some 100
    ∧ lookupAssoc (registerSocketForUserId
        (registerSocketForUserId [] 1 100).1 1 200).1 1 = some 200
    ∧ lookupAssoc (clientSocketCloseHandler
        (registerSocketForUserId (registerSocketForUserId [] 1 100).1 1 200).1
        1 100) 1 = none := by
  decide

/-- The two operations of the per-user advisory lock (`SoftLock`). -/
inductive LockOp
  | lock
  | unlock
deriving DecidableEq

/-- `SoftLock.set(locked)`: flips `_locked` and returns `true` when the new
value differs from the current one, otherwise leaves it and returns `false`.
Result: (new flag state, returned boolean). -/
def softLockSet (locked target : Bool) : Bool × Bool :=
  if locked ≠ target then (target, true) else (locked, false)

/-- One `lock()` / `unlock()` call on the flag state. -/
def lockStep (locked : Bool) : LockOp → Bool × Bool
  | .lock => softLockSet locked true
  | .unlock => softLockSet locked false

/-- Flag state after running a sequence of lock operations. -/
def runLock (s : Bool) (ops : List LockOp) : Bool :=
  ops.foldl (fun st op => (lockStep st op).1) s

theorem runLock_stays_locked (mid : List LockOp) :
    LockOp.unlock ∉ mid → runLock true mid = true := by
  induction mid with
  | nil => intro _; rfl
  | cons op rest ih =>
    intro h
    cases op with
    | lock =>
      have : runLock true (LockOp.lock :: rest) = runLock true rest := rfl
      rw [this]
      exact ih (fun hm => h (List.mem_cons_of_mem _ hm))
    | unlock => exact absurd (List.mem_cons_self _ _) (fun hm => h hm)

/-- Claim C9: `SoftLock.lock()` returns true and sets the flag exactly when
the flag was clear, and returns false leaving it set otherwise; consequently
between any two successful `lock()` calls (starting from a fresh lock) an
`unlock()` must occur, so at most one task per user holds the flag at a
time. -/
theorem softLock_cas_mutex :
    (∀ s : Bool,
      ((lockStep s LockOp.lock).2 = true ↔ s = false)
      ∧ (lockStep s LockOp.lock).1 = true
      ∧ (s = true → (lockStep s LockOp.lock).2 = false))
    ∧ (∀ pre mid : List LockOp,
        (lockStep (runLock false pre) LockOp.lock).2 = true →
        (lockStep (runLock true mid) LockOp.lock).2 = true →
        LockOp.unlock ∈ mid) := by
  refine ⟨by decide, ?_⟩
  intro pre mid _ h2
  by_contra hmem
  rw [runLock_stays_locked mid hmem] at h2
  exact absurd h2 (by decide)

/-- Concrete witness for C9: with nothing before the first `lock()` and a
single `unlock()` between the two, both `lock()` calls succeed and the
intervening `unlock` is found. -/
theorem softLock_cas_mutex_witness : LockOp.unlock ∈ [LockOp.unlock] :=
  softLock_cas_mutex.2 [] [LockOp.unlock] (by decide) (by decide)

/-- State of the `queueRunner` / `processQueue` loop, specialised to a fleet
of ready users. `queues i` is the number of pending work items of user `i`
(all sockets open, matching a run in which every user connected, became ready
and enqueued frames before the scan); `locked i` is user `i`'s `SoftLock`
flag; `setSize` is `set.size` in `queueRunner` — the `set.delete` scheduled
in the task's `finally` receives the pre-`finally` promise, which was never
added to the set, so the set only shrinks via `set.clear()`; `inflight` lists
the users whose `processTranscribe` task has started and not yet settled;
`peak` records the largest in-flight count seen. -/
structure DispatchState where
  queues : List Nat
  locked : List Bool
  setSize : Nat
  inflight : List Nat
  peak : Nat
deriving DecidableEq

/-- One task completes while the runner is awaiting
`Promise.race([rejectOnAbort(signal), Promise.any(set)])`: its `finally`
releases the user's `SoftLock`; we let the first-spawned in-flight task be
the one that settles. -/
def completeOne (s : DispatchState) : DispatchState :=
  match s.inflight with
  | [] => s
  | u :: rest => { s with locked := s.locked.set u false, inflight := rest }

/-- A `processQueue` generator step spawning user `u`'s next item (the user
was unlocked with a non-empty queue and an open socket): `lock()`, `dequeue`,
start `processTranscribe`, add the wrapped promise to the runner's set. -/
def spawnUser (s : DispatchState) (u : Nat) (remaining : Nat) : DispatchState :=
  let s1 : DispatchState :=
    { s with
      queues := s.queues.set u remaining
      locked := s.locked.set u true
      inflight := s.inflight ++ [u]
      setSize := s.setSize + 1 }
  { s1 with peak := max s1.peak s1.inflight.length }

/-- Body of the `queueRunner` for-loop for one user index `u` of the
`processQueue` generator: skip locked users, skip (lock then unlock) users
with an empty queue, otherwise spawn; then, when `set.size === maxConcurrent`,
await one completion and `set.clear()`. -/
def passStep (maxConcurrent : Nat) (s : DispatchState) (u : Nat) : DispatchState :=
  if s.locked.getD u true then s
  else
    match s.queues.getD u 0 with
    | 0 => s
    | remaining + 1 =>
      let s1 := spawnUser s u remaining
      if s1.setSize = maxConcurrent then
        { completeOne s1 with setSize := 0 }
      else
        s1

/-- One full `processQueue` generator pass of `queueRunner` over all known
user queues (the `Object.keys(USER_ID_QUEUE_MAP)` iteration). -/
def runnerPass (maxConcurrent : Nat) (s : DispatchState) : DispatchState :=
  (List.range s.queues.length).foldl (passStep maxConcurrent) s

/-- `numUsers` ready users, one pending frame each, nothing running yet. -/
def initialDispatch (numUsers : Nat) : DispatchState :=
  ⟨List.replicate numUsers 1, List.replicate numUsers false, 0, [], 0⟩

/-- Claim C1 (divergence): with `maxConcurrent = 5` (the value `queueRunner`
is started with) and ten ready users holding one frame each, a single
scheduling pass reaches nine simultaneously in-flight transcription tasks:
after `Promise.any` resolves, `set.clear()` drops the four still-running
tasks from the runner's accounting, so the next spawns push the true
in-flight count past the cap. -/
theorem queueRunner_exceeds_cap :
    (runnerPass 5 (initialDispatch 10)).peak = 9
    ∧ 5 < (runnerPass 5 (initialDispatch 10)).peak := by
  decide

/-- State of the `PingPongBuffer`-backed `Queue`. The two preallocated JS
arrays are modelled by the lists of values written since the last swap
(`writeBuf`, length = `_writeSize`) and the readable prefix of the read
buffer (`readBuf`, length = `_readSize`); slots beyond the sizes are never
observable (reads and slices are bounded by the sizes). `capacity` is the
fixed JS array length (default 1024). -/
structure PPQueue (α : Type) where
  capacity : Nat
  readBuf : List α
  writeBuf : List α
  readIndex : Nat
  hasWritten : Bool
deriving DecidableEq

/-- `new Queue()` over `new PingPongBuffer()` (default capacity 1024). -/
def ppEmpty {α : Type} : PPQueue α := ⟨1024, [], [], 0, false⟩

/-- `Queue.flush()`: when something was written and the read buffer is
exhausted, `swap()` the buffers (`_readSize = _writeSize; _writeSize = 0`)
and reset `readIndex`. -/
def qFlush {α : Type} (q : PPQueue α) : PPQueue α :=
  if q.hasWritten = false then q
  else if q.readIndex < q.readBuf.length then q
  else { q with hasWritten := false, readBuf := q.writeBuf, writeBuf := [], readIndex := 0 }

/-- The operations both queues expose (the subset under comparison). -/
inductive QOp (α : Type)
  | enqueue (a : α)
  | dequeue
  | peek
  | isEmpty
  | size
  | clear
  | toArray
deriving DecidableEq

/-- Observable result of one operation; `overflow` is the
`Error('Write buffer overflow')` thrown by `PingPongBuffer.write`. -/
inductive QOut (α : Type)
  | ack
  | item (o : Option α)
  | flag (b : Bool)
  | count (n : Nat)
  | arr (l : List α)
  | overflow
deriving DecidableEq

/-- One operation on the `PingPongBuffer`-backed queue, straight from the
source: `enqueue` = `buffer.write` + `hasWritten = true` (`write` throws
before mutating when `_writeSize >= capacity`); `dequeue`/`peek` =
`flush()` then a bounds-checked `buffer.read(readIndex)`; `isEmpty` =
`readIndex >= buffer.size()`; `size` = `buffer.size() - readIndex`;
`clear` = `buffer.clear()` (sizes to zero, `hasWritten` NOT reset) +
`readIndex = 0`; `toArray` = `getReadSlice(readIndex)` plus, when
`hasWritten`, `getWriteSlice()`. -/
def ppStep {α : Type} (q : PPQueue α) : QOp α → QOut α × PPQueue α
  | .enqueue a =>
    if q.capacity ≤ q.writeBuf.length then (.overflow, q)
    else (.ack, { q with writeBuf := q.writeBuf ++ [a], hasWritten := true })
  | .dequeue =>
    let q1 := qFlush q
    if q1.readBuf.length ≤ q1.readIndex then (.item none, q1)
    else (.item q1.readBuf[q1.readIndex]?, { q1 with readIndex := q1.readIndex + 1 })
  | .peek =>
    let q1 := qFlush q
    (.item q1.readBuf[q1.readIndex]?, q1)
  | .isEmpty => (.flag (decide (q.readBuf.length + q.writeBuf.length ≤ q.readIndex)), q)
  | .size => (.count (q.readBuf.length + q.writeBuf.length - q.readIndex), q)
  | .clear => (.ack, { q with readBuf := [], writeBuf := [], readIndex := 0 })
  | .toArray =>
    (.arr (q.readBuf.drop q.readIndex ++ if q.hasWritten then q.writeBuf else []), q)

/-- One operation on the plain array-backed queue (`items.push`,
`items.shift`, `items[0]`, `length === 0`, `length`, `items = []`,
`[...items]`). -/
def arrStep {α : Type} (items : List α) : QOp α → QOut α × List α
  | .enqueue a => (.ack, items ++ [a])
  | .dequeue =>
    match items with
    | [] => (.item none, [])
    | x :: rest => (.item (some x), rest)
  | .peek => (.item items.head?, items)
  | .isEmpty => (.flag items.isEmpty, items)
  | .size => (.count items.length, items)
  | .clear => (.ack, [])
  | .toArray => (.arr items, items)

/-- Output trace of a whole operation sequence on the ping-pong queue. -/
def ppRun {α : Type} : PPQueue α → List (QOp α) → List (QOut α)
  | _, [] => []
  | q, op :: ops => (ppStep q op).1 :: ppRun (ppStep q op).2 ops

/-- Output trace of a whole operation sequence on the array queue. -/
def arrRun {α : Type} : List α → List (QOp α) → List (QOut α)
  | _, [] => []
  | items, op :: ops => (arrStep items op).1 :: arrRun (arrStep items op).2 ops

/-- The queue content a ping-pong state represents: unread items of the read
buffer followed by the pending writes. -/
def content {α : Type} (q : PPQueue α) : List α :=
  q.readBuf.drop q.readIndex ++ q.writeBuf

/-- Simulation invariant between a ping-pong state and the array queue:
`readIndex` never passes `_readSize`, the write buffer is empty whenever
`hasWritten` is clear, and the represented content is the array queue. -/
structure QInv {α : Type} (q : PPQueue α) (items : List α) : Prop where
  idxLe : q.readIndex ≤ q.readBuf.length
  noWrite : q.hasWritten = false → q.writeBuf = []
  rep : content q = items

theorem qFlush_sim {α : Type} {q : PPQueue α} {items : List α} (h : QInv q items) :
    QInv (qFlush q) items
    ∧ ((qFlush q).readBuf.length ≤ (qFlush q).readIndex → (qFlush q).writeBuf = []) := by
  unfold qFlush
  by_cases hw : q.hasWritten = false
  · rw [if_pos hw]
    exact ⟨h, fun hle => h.noWrite hw⟩
  · rw [if_neg hw]
    by_cases hr : q.readIndex < q.readBuf.length
    · rw [if_pos hr]
      exact ⟨h, fun hle => absurd hr (by omega)⟩
    · rw [if_neg hr]
      have hge : q.readBuf.length ≤ q.readIndex := by omega
      have hdrop : q.readBuf.drop q.readIndex = [] := List.drop_eq_nil_of_le hge
      refine ⟨⟨Nat.zero_le _, fun _ => rfl, ?_⟩, fun _ => rfl⟩
      show q.writeBuf.drop 0 ++ [] = items
      rw [← h.rep]
      simp [content, hdrop]

theorem ppStep_sim {α : Type} {q : PPQueue α} {items : List α} (h : QInv q items)
    (op : QOp α) :
    (ppStep q op).1 = QOut.overflow ∨
    ((ppStep q op).1 = (arrStep items op).1
      ∧ QInv (ppStep q op).2 (arrStep items op).2) := by
  cases op with
  | enqueue a =>
    by_cases hc : q.capacity ≤ q.writeBuf.length
    · left
      simp [ppStep, hc]
    · right
      have hstep : ppStep q (QOp.enqueue a)
          = (QOut.ack, { q with writeBuf := q.writeBuf ++ [a], hasWritten := true }) := by
        simp [ppStep, hc]
      rw [hstep]
      refine ⟨rfl, h.idxLe, fun hw => by simp at hw, ?_⟩
      show q.readBuf.drop q.readIndex ++ (q.writeBuf ++ [a]) = items ++ [a]
      rw [← h.rep]
      simp [content]
  | dequeue =>
    right
    obtain ⟨h1, hpost⟩ := qFlush_sim h
    by_cases hle : (qFlush q).readBuf.length ≤ (qFlush q).readIndex
    · have hwb : (qFlush q).writeBuf = [] := hpost hle
      have hitems : items = [] := by
        rw [← h1.rep]
        unfold content
        rw [List.drop_eq_nil_of_le hle, hwb]
        rfl
      have hstep : ppStep q QOp.dequeue = (QOut.item none, qFlush q) := by
        simp [ppStep, hle]
      rw [hstep, hitems]
      rw [hitems] at h1
      exact ⟨rfl, h1⟩
    · have hlt : (qFlush q).readIndex < (qFlush q).readBuf.length := by omega
      have hcons := List.drop_eq_getElem_cons hlt
      have hitems : items = (qFlush q).readBuf[(qFlush q).readIndex]
          :: ((qFlush q).readBuf.drop ((qFlush q).readIndex + 1) ++ (qFlush q).writeBuf) := by
        rw [← h1.rep]
        unfold content
        rw [hcons, List.cons_append]
      have hstep : ppStep q QOp.dequeue
          = (QOut.item (qFlush q).readBuf[(qFlush q).readIndex]?,
            { qFlush q with readIndex := (qFlush q).readIndex + 1 }) := by
        simp [ppStep, hle]
      rw [hstep, hitems]
      refine ⟨by rw [List.getElem?_eq_getElem hlt]; rfl, ?_, ?_, ?_⟩
      · show (qFlush q).readIndex + 1 ≤ (qFlush q).readBuf.length
        omega
      · exact h1.noWrite
      · show (qFlush q).readBuf.drop ((qFlush q).readIndex + 1) ++ (qFlush q).writeBuf = _
        rfl
  | peek =>
    right
    obtain ⟨h1, hpost⟩ := qFlush_sim h
    have hstep : ppStep q QOp.peek
        = (QOut.item (qFlush q).readBuf[(qFlush q).readIndex]?, qFlush q) := by
      simp [ppStep]
    rw [hstep]
    by_cases hle : (qFlush q).readBuf.length ≤ (qFlush q).readIndex
    · have hwb : (qFlush q).writeBuf = [] := hpost hle
      have hitems : items = [] := by
        rw [← h1.rep]
        unfold content
        rw [List.drop_eq_nil_of_le hle, hwb]
        rfl
      rw [hitems]
      rw [hitems] at h1
      exact ⟨by rw [List.getElem?_eq_none hle]; rfl, h1⟩
    · have hlt : (qFlush q).readIndex < (qFlush q).readBuf.length := by omega
      have hcons := List.drop_eq_getElem_cons hlt
      have hitems : items = (qFlush q).readBuf[(qFlush q).readIndex]
          :: ((qFlush q).readBuf.drop ((qFlush q).readIndex + 1) ++ (qFlush q).writeBuf) := by
        rw [← h1.rep]
        unfold content
        rw [hcons, List.cons_append]
      rw [hitems]
      rw [hitems] at h1
      exact ⟨by rw [List.getElem?_eq_getElem hlt]; rfl, h1⟩
  | isEmpty =>
    right
    have hlen : items.length = (q.readBuf.length - q.readIndex) + q.writeBuf.length := by
      rw [← h.rep]
      simp [content]
    have hiff : (q.readBuf.length + q.writeBuf.length ≤ q.readIndex) ↔ items = [] := by
      rw [← List.length_eq_zero, hlen]
      have := h.idxLe
      omega
    refine ⟨?_, h⟩
    show QOut.flag (decide (q.readBuf.length + q.writeBuf.length ≤ q.readIndex))
      = QOut.flag items.isEmpty
    congr 1
    cases he : items.isEmpty with
    | true => exact decide_eq_true (hiff.mpr (List.isEmpty_iff.mp he))
    | false =>
      refine decide_eq_false (fun hP => ?_)
      rw [hiff.mp hP] at he
      simp at he
  | size =>
    right
    have hlen : items.length = (q.readBuf.length - q.readIndex) + q.writeBuf.length := by
      rw [← h.rep]
      simp [content]
    refine ⟨?_, h⟩
    show QOut.count (q.readBuf.length + q.writeBuf.length - q.readIndex)
      = QOut.count items.length
    congr 1
    have := h.idxLe
    omega
  | clear =>
    right
    exact ⟨rfl, Nat.le_refl 0, fun _ => rfl, rfl⟩
  | toArray =>
    right
    refine ⟨?_, h⟩
    show QOut.arr (q.readBuf.drop q.readIndex ++ if q.hasWritten then q.writeBuf else [])
      = QOut.arr items
    congr 1
    cases hw : q.hasWritten with
    | true =>
      rw [← h.rep]
      simp [content]
    | false =>
      have hwb := h.noWrite hw
      rw [← h.rep]
      simp [content, hwb]

theorem run_sim {α : Type} (ops : List (QOp α)) :
    ∀ (q : PPQueue α) (items : List α), QInv q items →
    QOut.overflow ∉ ppRun q ops → ppRun q ops = arrRun items ops := by
  induction ops with
  | nil => intro q items _ _; rfl
  | cons op rest ih =>
    intro q items h hov
    rcases ppStep_sim h op with hovf | ⟨hout, hinv⟩
    · exact absurd
        (show QOut.overflow ∈ ppRun q (op :: rest) from by
          show QOut.overflow ∈ (ppStep q op).1 :: ppRun (ppStep q op).2 rest
          rw [hovf]
          exact List.mem_cons_self _ _) hov
    · show (ppStep q op).1 :: ppRun (ppStep q op).2 rest
        = (arrStep items op).1 :: arrRun (arrStep items op).2 rest
      have hov2 : QOut.overflow ∉ ppRun (ppStep q op).2 rest := fun hm =>
        hov (List.mem_cons_of_mem _ hm)
      rw [hout, ih _ _ hinv hov2]

/-- Claim C10 (amended): the `PingPongBuffer`-backed queue and the
array-backed queue are observationally equivalent on every operation
sequence during which the ping-pong write buffer never overflows — both
produce identical results at every step; the proviso is needed because the
ping-pong buffer has a fixed capacity of 1024 pending writes while the array
queue is unbounded. -/
theorem queue_equiv_no_overflow {α : Type} (ops : List (QOp α))
    (hov : QOut.overflow ∉ ppRun ppEmpty ops) :
    ppRun (ppEmpty : PPQueue α) ops = arrRun [] ops :=
  run_sim ops ppEmpty [] ⟨Nat.le_refl 0, fun _ => rfl, rfl⟩ hov

/-- A mixed workload exercising every operation (no overflow). -/
def demoOps : List (QOp Nat) :=
  [QOp.enqueue 1, QOp.enqueue 2, QOp.toArray, QOp.dequeue, QOp.enqueue 3,
   QOp.peek, QOp.size, QOp.isEmpty, QOp.toArray, QOp.dequeue, QOp.dequeue,
   QOp.dequeue, QOp.isEmpty, QOp.clear, QOp.enqueue 4, QOp.dequeue]

/-- Concrete witness for the amended C10: on the mixed workload the two
queues produce the same trace. -/
theorem queue_equiv_no_overflow_witness :
    QOut.overflow ∉ ppRun ppEmpty demoOps
    ∧ ppRun (ppEmpty : PPQueue Nat) demoOps = arrRun [] demoOps :=
  ⟨by decide, queue_equiv_no_overflow demoOps (by decide)⟩

/-- 1025 consecutive enqueues: one more than the ping-pong capacity. -/
def overflowOps : List (QOp Nat) := List.replicate 1025 (QOp.enqueue 0)

/-- Final ping-pong state after a whole operation sequence. -/
def ppFinal {α : Type} : PPQueue α → List (QOp α) → PPQueue α
  | q, [] => q
  | q, op :: ops => ppFinal (ppStep q op).2 ops

theorem ppRun_append {α : Type} (l1 : List (QOp α)) :
    ∀ (q : PPQueue α) (l2 : List (QOp α)),
    ppRun q (l1 ++ l2) = ppRun q l1 ++ ppRun (ppFinal q l1) l2 := by
  induction l1 with
  | nil => intro q l2; rfl
  | cons op rest ih =>
    intro q l2
    show (ppStep q op).1 :: ppRun (ppStep q op).2 (rest ++ l2)
      = ((ppStep q op).1 :: ppRun (ppStep q op).2 rest)
        ++ ppRun (ppFinal (ppStep q op).2 rest) l2
    rw [ih]
    rfl

theorem ppRun_enqueue_only {α : Type} (a : α) :
    ∀ (n : Nat) (q : PPQueue α), q.writeBuf.length + n ≤ q.capacity →
    ppRun q (List.replicate n (QOp.enqueue a)) = List.replicate n (QOut.ack)
    ∧ (ppFinal q (List.replicate n (QOp.enqueue a))).writeBuf.length
        = q.writeBuf.length + n
    ∧ (ppFinal q (List.replicate n (QOp.enqueue a))).capacity = q.capacity := by
  intro n
  induction n with
  | zero =>
    intro q _
    exact ⟨rfl, rfl, rfl⟩
  | succ m ih =>
    intro q hcap
    have hc : ¬ q.capacity ≤ q.writeBuf.length := by omega
    have hstep : ppStep q (QOp.enqueue a)
        = (QOut.ack, { q with writeBuf := q.writeBuf ++ [a], hasWritten := true }) := by
      simp [ppStep, hc]
    have hcap2 : ({ q with writeBuf := q.writeBuf ++ [a], hasWritten := true }
        : PPQueue α).writeBuf.length + m
        ≤ ({ q with writeBuf := q.writeBuf ++ [a], hasWritten := true }
          : PPQueue α).capacity := by
      simp
      omega
    obtain ⟨hrun, hwlen, hcapeq⟩ := ih _ hcap2
    refine ⟨?_, ?_, ?_⟩
    · have hshape : ppRun q (List.replicate (m + 1) (QOp.enqueue a))
          = (ppStep q (QOp.enqueue a)).1
            :: ppRun (ppStep q (QOp.enqueue a)).2 (List.replicate m (QOp.enqueue a)) := rfl
      rw [hshape, hstep, List.replicate_succ]
      show QOut.ack :: ppRun { q with writeBuf := q.writeBuf ++ [a], hasWritten := true }
        (List.replicate m (QOp.enqueue a)) = QOut.ack :: List.replicate m (QOut.ack)
      rw [hrun]
    · have hshape : ppFinal q (List.replicate (m + 1) (QOp.enqueue a))
          = ppFinal (ppStep q (QOp.enqueue a)).2 (List.replicate m (QOp.enqueue a)) := rfl
      rw [hshape, hstep]
      show (ppFinal { q with writeBuf := q.writeBuf ++ [a], hasWritten := true }
        (List.replicate m (QOp.enqueue a))).writeBuf.length = q.writeBuf.length + (m + 1)
      rw [hwlen]
      simp
      omega
    · have hshape : ppFinal q (List.replicate (m + 1) (QOp.enqueue a))
          = ppFinal (ppStep q (QOp.enqueue a)).2 (List.replicate m (QOp.enqueue a)) := rfl
      rw [hshape, hstep]
      show (ppFinal { q with writeBuf := q.writeBuf ++ [a], hasWritten := true }
        (List.replicate m (QOp.enqueue a))).capacity = q.capacity
      rw [hcapeq]

theorem arrRun_enqueue_only {α : Type} (a : α) :
    ∀ (n : Nat) (items : List α),
    arrRun items (List.replicate n (QOp.enqueue a)) = List.replicate n (QOut.ack) := by
  intro n
  induction n with
  | zero => intro items; rfl
  | succ m ih =>
    intro items
    show QOut.ack :: arrRun (items ++ [a]) (List.replicate m (QOp.enqueue a))
      = QOut.ack :: List.replicate m (QOut.ack)
    rw [ih]

theorem ppStep_overflow {α : Type} {q : PPQueue α} (a : α)
    (hc : q.capacity ≤ q.writeBuf.length) :
    ppStep q (QOp.enqueue a) = (QOut.overflow, q) := by
  simp [ppStep, hc]

/-- Counterexample to C10 as stated: on 1025 consecutive enqueues the
ping-pong queue's last operation throws `Write buffer overflow` while the
array queue accepts it, so the two traces differ. -/
theorem queue_equiv_counterexample :
    (ppRun ppEmpty overflowOps).getLast? = some QOut.overflow
    ∧ (arrRun [] overflowOps).getLast? = some QOut.ack
    ∧ ppRun ppEmpty overflowOps ≠ arrRun [] overflowOps := by
  have hsplit : overflowOps
      = List.replicate 1024 (QOp.enqueue 0) ++ [QOp.enqueue 0] := by
    show List.replicate 1025 (QOp.enqueue 0) = _
    rw [show (1025 : Nat) = 1024 + 1 from rfl, List.replicate_succ']
  obtain ⟨hrun1024, hwlen, hcap⟩ :=
    ppRun_enqueue_only 0 1024 (ppEmpty : PPQueue Nat) (by simp [ppEmpty])
  have hc : (ppFinal (ppEmpty : PPQueue Nat)
        (List.replicate 1024 (QOp.enqueue 0))).capacity
      ≤ (ppFinal (ppEmpty : PPQueue Nat)
        (List.replicate 1024 (QOp.enqueue 0))).writeBuf.length := by
    rw [hcap, hwlen]
    simp [ppEmpty]
  have hover : ppRun (ppFinal (ppEmpty : PPQueue Nat)
      (List.replicate 1024 (QOp.enqueue 0))) [QOp.enqueue 0] = [QOut.overflow] := by
    have hstep : ppStep (ppFinal (ppEmpty : PPQueue Nat)
          (List.replicate 1024 (QOp.enqueue 0))) (QOp.enqueue 0)
        = (QOut.overflow, ppFinal (ppEmpty : PPQueue Nat)
            (List.replicate 1024 (QOp.enqueue 0))) := ppStep_overflow 0 hc
    have hshape : ppRun (ppFinal (ppEmpty : PPQueue Nat)
          (List.replicate 1024 (QOp.enqueue 0))) [QOp.enqueue 0]
        = (ppStep (ppFinal (ppEmpty : PPQueue Nat)
            (List.replicate 1024 (QOp.enqueue 0))) (QOp.enqueue 0)).1 :: [] := rfl
    rw [hshape, hstep]
  have hpp : ppRun (ppEmpty : PPQueue Nat) overflowOps
      = List.replicate 1024 (QOut.ack) ++ [QOut.overflow] := by
    rw [hsplit, ppRun_append, hrun1024, hover]
  have harr : arrRun ([] : List Nat) overflowOps = List.replicate 1025 (QOut.ack) :=
    arrRun_enqueue_only 0 1025 []
  have hlast1 : (ppRun (ppEmpty : PPQueue Nat) overflowOps).getLast?
      = some QOut.overflow := by
    rw [hpp, List.getLast?_concat]
  have hlast2 : (arrRun ([] : List Nat) overflowOps).getLast? = some QOut.ack := by
    rw [harr, show (1025 : Nat) = 1024 + 1 from rfl, List.replicate_succ',
      List.getLast?_concat]
  refine ⟨hlast1, hlast2, fun heq => ?_⟩
  rw [heq, hlast2] at hlast1
  exact QOut.noConfusion (Option.some.inj hlast1)
